import Mathlib

/-!
Verification of the InkyPi Spectra6 image-conversion pipeline.

The development shallowly embeds the conversion core of the repository:

* `src/blueprints/main.py` — the fixed 6-color palette, the quantize/dither
  call, the 4-bits-per-pixel packing (`convert_to_display_format`) and the
  `If-Modified-Since` freshness gate of `/api/current_image`;
* `src/utils/app_utils.py` — the geometry fitter `_resize_and_rotate_image`
  (orientation handling, center-crop fit, blur padding, white border) and the
  upload handler `handle_request_files`;
* `src/plugins/image_upload/image_upload.py` — `ImageUpload.open_image`.

Machine integers are modelled as `Nat`/`Int` with explicit wrap-around where
the code uses fixed-width arithmetic (numpy `uint8`).  Operations implemented
by external libraries (PIL quantization/resampling, `utils.image_utils.pad_image_blur`
which is not among the sources) are modelled from the specification and say so
in their doc comments.
-/

namespace InkyPi

/-- An RGB color value.  Components are `Int` so that the dithering error
arithmetic (original minus palette color, possibly negative) is exact. -/
structure RGBi where
  r : Int
  g : Int
  b : Int
deriving DecidableEq, Repr

/-- The zero color / zero error vector. -/
def rgbZero : RGBi := ⟨0, 0, 0⟩

/-- Pure white, used by the border compositing step. -/
def rgbWhite : RGBi := ⟨255, 255, 255⟩

/-- Pure red (palette index 4). -/
def rgbRed : RGBi := ⟨255, 0, 0⟩

/-- Componentwise addition. -/
def addv (a e : RGBi) : RGBi := ⟨a.r + e.r, a.g + e.g, a.b + e.b⟩

/-- Componentwise subtraction (quantization error: original minus chosen). -/
def subv (a c : RGBi) : RGBi := ⟨a.r - c.r, a.g - c.g, a.b - c.b⟩

/-- Multiply an error vector by `k/16` (Floyd–Steinberg fraction, integer
division). -/
def scaleDiv16 (e : RGBi) (k : Int) : RGBi := ⟨e.r * k / 16, e.g * k / 16, e.b * k / 16⟩

/-- Squared Euclidean distance in RGB space. -/
def dist2 (a c : RGBi) : Int :=
  (a.r - c.r) * (a.r - c.r) + (a.g - c.g) * (a.g - c.g) + (a.b - c.b) * (a.b - c.b)

/-- `palette_data` from `main.py`: the 18 RGB components of the six palette
colors, padded with zeros to 256 palette entries (768 components). -/
def paletteData : List Nat :=
  [0, 0, 0,
   255, 255, 255,
   0, 128, 0,
   0, 0, 255,
   255, 0, 0,
   255, 255, 0] ++ List.replicate (768 - 18) 0

/-- The six displayable colors, in contractual index order
0=Black, 1=White, 2=Green, 3=Blue, 4=Red, 5=Yellow (from `palette_data` in
`main.py`; the zero padding entries duplicate black and never win the
lowest-index-first nearest-color search, so the effective palette is these
six). -/
def paletteColors : List RGBi :=
  [⟨0, 0, 0⟩, ⟨255, 255, 255⟩, ⟨0, 128, 0⟩, ⟨0, 0, 255⟩, ⟨255, 0, 0⟩, ⟨255, 255, 0⟩]

/-- Linear scan for the index of the nearest palette color; a strictly smaller
distance is required to displace the current best, so ties resolve to the
lowest index.  `i` is the index of the head of `cs`, `bi`/`bd` the best index
and distance so far. -/
def nearestAux (v : RGBi) : List RGBi → Nat → Nat → Int → Nat
  | [], _, bi, _ => bi
  | c :: cs, i, bi, bd =>
    if dist2 c v < bd then nearestAux v cs (i + 1) i (dist2 c v)
    else nearestAux v cs (i + 1) bi bd

/-- Index of the nearest palette color (ties to the lowest index). -/
def nearestIdx (pal : List RGBi) (v : RGBi) : Nat :=
  match pal with
  | [] => 0
  | c :: cs => nearestAux v cs 1 0 (dist2 c v)

/-- Modelled from the spec: one raster row of Floyd–Steinberg error-diffusion
quantization (the quantizer itself lives in PIL's `Image.quantize` /
`convert("P", dither, palette)`, which is not part of the sources).  `carry` is
the 7/16 error fraction diffused from the left neighbour.  Returns the emitted
palette indices and the full quantization error of every pixel of the row. -/
def fsRowAux (pal : List RGBi) : List RGBi → RGBi → List Nat × List RGBi
  | [], _ => ([], [])
  | v :: vs, carry =>
    let v1 := addv v carry
    let i := nearestIdx pal v1
    let e := subv v1 (pal.getD i rgbZero)
    let rest := fsRowAux pal vs (scaleDiv16 e 7)
    (i :: rest.1, e :: rest.2)

/-- Modelled from the spec: the error contributions a row's pixel errors send
to the next row — position `x` receives 3/16 of the error of pixel `x+1`
(below-left), 5/16 of pixel `x` (below) and 1/16 of pixel `x-1`
(below-right). -/
def rowContrib (errs : List RGBi) (w : Nat) : List RGBi :=
  (List.range w).map fun x =>
    addv (scaleDiv16 (errs.getD (x + 1) rgbZero) 3)
      (addv (scaleDiv16 (errs.getD x rgbZero) 5)
        (if x = 0 then rgbZero else scaleDiv16 (errs.getD (x - 1) rgbZero) 1))

/-- Add incoming diffused errors positionwise to a row of pixel values. -/
def addRows : List RGBi → List RGBi → List RGBi
  | [], _ => []
  | v :: vs, [] => v :: addRows vs []
  | v :: vs, e :: es => addv v e :: addRows vs es

/-- Modelled from the spec: Floyd–Steinberg quantization over the rows of an
image, threading the diffused errors for the next row through `inc`. -/
def fsQuantAux (pal : List RGBi) : List (List RGBi) → List RGBi → List (List Nat)
  | [], _ => []
  | row :: rest, inc =>
    let row1 := addRows row inc
    let res := fsRowAux pal row1 rgbZero
    res.1 :: fsQuantAux pal rest (rowContrib res.2 (rest.headD []).length)

/-- Modelled from the spec: `quantize(fittedImage, palette) → indexCanvas`,
Floyd–Steinberg error diffusion against a fixed palette (PIL
`Image.quantize(colors=6, palette=PALETTE_IMAGE, dither=FLOYDSTEINBERG)`). -/
def fsQuant (pal : List RGBi) (rows : List (List RGBi)) : List (List Nat) :=
  fsQuantAux pal rows []

/-- `resize_and_dither_image` (main.py): quantize the decoded RGB image with
the strict module-level 6-color palette.  The palette is baked in; nothing is
derived from the input image. -/
def resizeAndDitherImage (img : List (List RGBi)) : List (List Nat) :=
  fsQuant paletteColors img

/-- One packed byte, `(p0 << 4) | p1` in numpy `uint8` arithmetic: the shift
wraps modulo 256, the combination is bitwise or. -/
def packByte (p0 p1 : Nat) : Nat := Nat.lor (p0 * 16 % 256) p1

/-- Split the nibbles of a packed byte back into high, low order. -/
def unpackByte (byte : Nat) : List Nat := [byte / 16, byte % 16]

/-- `flat[0::2]` and `flat[1::2]`: the even- and odd-position elements of the
row-major flattened canvas. -/
def stride2 : List Nat → List Nat × List Nat
  | [] => ([], [])
  | [a] => ([a], [])
  | a :: b :: rest =>
    let eo := stride2 rest
    (a :: eo.1, b :: eo.2)

/-- The elementwise `(e << 4) | o` under numpy 1-D broadcasting: arrays of
equal length combine pointwise; a length-1 array is broadcast against the
other; any other length mismatch raises a `ValueError` (modelled as `none`). -/
def npBroadcastPack (evens odds : List Nat) : Option (List Nat) :=
  if evens.length = odds.length then
    some (List.zipWith packByte evens odds)
  else if evens.length = 1 then
    some (odds.map fun p1 => packByte (evens.headD 0) p1)
  else if odds.length = 1 then
    some (evens.map fun p0 => packByte p0 (odds.headD 0))
  else
    none

/-- Pack a row-major flattened index canvas:
`(flat[0::2] << 4) | flat[1::2]` from `convert_to_display_format`. -/
def packFlat (flat : List Nat) : Option (List Nat) :=
  npBroadcastPack (stride2 flat).1 (stride2 flat).2

/-- Pack an index canvas (list of rows): `np.array(quantized)` is the
height×width index grid, `.flatten()` is its row-major flattening. -/
def packCanvas (canvas : List (List Nat)) : Option (List Nat) :=
  packFlat canvas.flatten

/-- `convert_to_display_format` (main.py): quantize with the fixed palette,
flatten row-major, pack two 4-bit indices per byte. -/
def convertToDisplayFormat (img : List (List RGBi)) : Option (List Nat) :=
  packFlat (resizeAndDitherImage img).flatten

/-- A decoded bitmap: width, height and a total pixel function (PIL `Image`).
Coordinates outside `[0,w) × [0,h)` are never observed by the operations
below. -/
structure Img where
  w : Nat
  h : Nat
  pix : Nat → Nat → RGBi

/-- Modelled from the spec: PIL `Image.resize((nw, nh), LANCZOS)` — the result
has exactly the requested dimensions and its content is a resampling of the
source; the floating-point Lanczos kernel is idealized to integer coordinate
sampling (the claims below only depend on the dimensions and on resampling
preserving constant images). -/
def resizeOp (img : Img) (nw nh : Nat) : Img :=
  ⟨nw, nh, fun x y => img.pix (x * img.w / nw) (y * img.h / nh)⟩

/-- Modelled from the spec: PIL `ImageOps.fit(image, target, LANCZOS)` —
center-crop to the target aspect ratio, then high-quality resample so the
result exactly fills the target box.  The crop-and-resample content is
idealized to integer coordinate sampling; the dimensions are exact. -/
def fitOp (img : Img) (target : Nat × Nat) : Img :=
  ⟨target.1, target.2, fun x y => img.pix (x * img.w / target.1) (y * img.h / target.2)⟩

/-- Modelled from the spec: `pad_image_blur` (`utils/image_utils.py`, not among
the sources) — scale the source to fit inside the target box preserving aspect
ratio, center it, and fill the letterbox area with a blurred version of the
source scaled to cover the box (never a flat color).  The Gaussian blur is
idealized to sampling the cover-scaled source; the dimensions are exactly the
target box. -/
def padImageBlur (img : Img) (target : Nat × Nat) : Img :=
  Img.mk target.1 target.2 fun x y =>
    let fgW := if img.w * target.2 ≥ img.h * target.1 then target.1
      else target.2 * img.w / img.h
    let fgH := if img.w * target.2 ≥ img.h * target.1 then target.1 * img.h / img.w
      else target.2
    let offX := (target.1 - fgW) / 2
    let offY := (target.2 - fgH) / 2
    if offX ≤ x ∧ x < offX + fgW ∧ offY ≤ y ∧ y < offY + fgH then
      (resizeOp img fgW fgH).pix (x - offX) (y - offY)
    else
      (resizeOp img target.1 target.2).pix x y

/-- PIL `Image.rotate(90, expand=True)`: a counter-clockwise quarter turn; the
dimensions swap. -/
def rotate90 (img : Img) : Img :=
  ⟨img.h, img.w, fun x y => img.pix (img.w - 1 - y) x⟩

/-- `int(canvas_size * (1 - border_percent / 100))` from
`_resize_and_rotate_image`; the Python floating-point product is idealized to
the exact rational, truncated. -/
def shrinkDim (d b : Nat) : Nat := d * (100 - b) / 100

/-- `(canvas_size - new_size) // 2`: the centered paste offset. -/
def pasteOff (d b : Nat) : Nat := (d - shrinkDim d b) / 2

/-- The border step of `_resize_and_rotate_image` (app_utils.py): when
`border_percent > 0`, shrink the fitted image by `1 - border_percent/100`,
create a white canvas of the original size and paste the shrunk image
centered. -/
def applyBorder (img : Img) (b : Nat) : Img :=
  if 0 < b then
    Img.mk img.w img.h fun x y =>
      if pasteOff img.w b ≤ x ∧ x < pasteOff img.w b + shrinkDim img.w b ∧
          pasteOff img.h b ≤ y ∧ y < pasteOff img.h b + shrinkDim img.h b then
        (resizeOp img (shrinkDim img.w b) (shrinkDim img.h b)).pix
          (x - pasteOff img.w b) (y - pasteOff img.h b)
      else rgbWhite
  else img

/-- `_resize_and_rotate_image` (app_utils.py): fit the source to the display
according to the configured orientation, then apply the optional white
border.  `displayW × displayH` is `device_config.get_resolution()`. -/
def resizeAndRotateImage (img : Img) (orient : String) (displayW displayH : Nat)
    (borderPercent : Nat) : Img :=
  let fitted :=
    if orient = "vertical" then
      if img.w > img.h then rotate90 (padImageBlur img (displayH, displayW))
      else rotate90 (fitOp img (displayH, displayW))
    else fitOp img (displayW, displayH)
  applyBorder fitted borderPercent

/-- All pixels inside the canvas are white (no non-white content anywhere). -/
def allWhite (img : Img) : Bool :=
  (List.range img.w).all fun x =>
    (List.range img.h).all fun y => decide (img.pix x y = rgbWhite)

/-- `ImageUpload.open_image` (image_upload.py): PIL decoding is external, so
the decode result is given as an `Option`; on failure the code raises
`RuntimeError("Failed to read image file.")` and never retries. -/
def openImage (decodeResult : Option Img) : Except String Img :=
  match decodeResult with
  | some img => .ok img
  | none => .error "Failed to read image file."

/-- What `handle_request_files` does with one uploaded image file. -/
inductive SaveOutcome where
  | processedSave (img : Img)
  | rawSave

/-- The per-image-file body of `handle_request_files` (app_utils.py): try to
decode, resize and rotate, and save the processed image; on any failure the
exception is caught, a warning is logged, and the raw uploaded bytes are saved
in its place (`file.seek(0); file.save(file_path)`) — the request still
succeeds. -/
def handleImageFile (decodeResult : Option Img) (orient : String)
    (displayW displayH borderPercent : Nat) : SaveOutcome :=
  match decodeResult with
  | some img => .processedSave (resizeAndRotateImage img orient displayW displayH borderPercent)
  | none => .rawSave

/-- A response of the `/api/current_image` route, reduced to the parts the
spec talks about: status code, body bytes, and the `Last-Modified` marker. -/
structure HttpResponse where
  status : Nat
  body : List Nat
  lastModified : Option Int
deriving DecidableEq, Repr

/-- `int(os.path.getmtime(path))`: Python `int()` truncation toward zero of
the float mtime, idealized as a rational number of seconds. -/
def truncSeconds (m : ℚ) : Int := if 0 ≤ m then ⌊m⌋ else -⌊-m⌋

/-- The fresh-serve path of `get_current_image` (raw/spectra6 format): pack
the current image and attach `Last-Modified`; a conversion failure is caught
and answered with a 500 error. -/
def freshResponse (fileMtime : Int) (img : List (List RGBi)) : HttpResponse :=
  match convertToDisplayFormat img with
  | some buf => ⟨200, buf, some fileMtime⟩
  | none => ⟨500, [], none⟩

/-- `get_current_image` (main.py), raw format: truncate the file mtime to
whole seconds; if the `If-Modified-Since` header parsed (`header = some t`,
the external `datetime.strptime` modelled as an optional parsed time) and
`file_mtime <= t`, answer `'', 304`; otherwise (strictly newer file or parse
failure) convert and serve fresh. -/
def getCurrentImage (mtime : ℚ) (header : Option Int) (img : List (List RGBi)) :
    HttpResponse :=
  let fileMtime := truncSeconds mtime
  match header with
  | some t => if fileMtime ≤ t then ⟨304, [], none⟩ else freshResponse fileMtime img
  | none => freshResponse fileMtime img

/-! ### Packing lemmas -/

/-- Two-step induction on lists, matching the recursion of `stride2`. -/
theorem twoStepInduction {α : Type} {motive : List α → Prop} (h0 : motive [])
    (h1 : ∀ a, motive [a]) (h2 : ∀ a b rest, motive rest → motive (a :: b :: rest)) :
    ∀ l, motive l
  | [] => h0
  | [a] => h1 a
  | a :: b :: rest => h2 a b rest (twoStepInduction h0 h1 h2 rest)

/-- The even-position slice has `⌈n/2⌉` elements, the odd-position slice
`⌊n/2⌋`. -/
theorem stride2_lengths (l : List Nat) :
    (stride2 l).1.length = (l.length + 1) / 2 ∧ (stride2 l).2.length = l.length / 2 := by
  induction l using twoStepInduction with
  | h0 => simp [stride2]
  | h1 a => simp [stride2]
  | h2 a b rest ih => simp [stride2, ih.1, ih.2]; omega

/-- Every element of either slice is an element of the original list. -/
theorem stride2_mem (l : List Nat) :
    (∀ x ∈ (stride2 l).1, x ∈ l) ∧ ∀ x ∈ (stride2 l).2, x ∈ l := by
  induction l using twoStepInduction with
  | h0 => simp [stride2]
  | h1 a => simp [stride2]
  | h2 a b rest ih =>
    constructor
    · intro x hx
      rw [show (stride2 (a :: b :: rest)).1 = a :: (stride2 rest).1 from rfl] at hx
      rcases List.mem_cons.mp hx with rfl | hx
      · simp
      · simp [ih.1 x hx]
    · intro x hx
      rw [show (stride2 (a :: b :: rest)).2 = b :: (stride2 rest).2 from rfl] at hx
      rcases List.mem_cons.mp hx with rfl | hx
      · simp
      · simp [ih.2 x hx]

/-- On nibble values the packed byte is exactly `16*p0 + p1` (checked over all
256 nibble pairs). -/
theorem packByte_fin : ∀ a b : Fin 16, packByte a.val b.val = 16 * a.val + b.val := by
  decide

/-- The packed byte of two nibbles, as arithmetic. -/
theorem packByte_eq {p0 p1 : Nat} (h0 : p0 < 16) (h1 : p1 < 16) :
    packByte p0 p1 = 16 * p0 + p1 :=
  packByte_fin ⟨p0, h0⟩ ⟨p1, h1⟩

/-- Unpacking inverts packing on nibble values. -/
theorem unpack_packByte {p0 p1 : Nat} (h0 : p0 < 16) (h1 : p1 < 16) :
    unpackByte (packByte p0 p1) = [p0, p1] := by
  rw [packByte_eq h0 h1]
  have e1 : (16 * p0 + p1) / 16 = p0 := by omega
  have e2 : (16 * p0 + p1) % 16 = p1 := by omega
  rw [unpackByte, e1, e2]

/-- For an even-length flat canvas, packing succeeds, pairs consecutive
pixels, and unpacking each byte high-nibble-first reproduces the canvas. -/
theorem packFlat_even (flat : List Nat) (hval : ∀ p ∈ flat, p < 16)
    (heven : flat.length % 2 = 0) :
    packFlat flat = some (List.zipWith packByte (stride2 flat).1 (stride2 flat).2) ∧
    (List.zipWith packByte (stride2 flat).1 (stride2 flat).2).length = flat.length / 2 ∧
    (List.zipWith packByte (stride2 flat).1 (stride2 flat).2).flatMap unpackByte = flat := by
  refine ⟨?_, ?_, ?_⟩
  · have hlen := stride2_lengths flat
    have : (stride2 flat).1.length = (stride2 flat).2.length := by omega
    simp [packFlat, npBroadcastPack, this]
  · have hlen := stride2_lengths flat
    rw [List.length_zipWith]
    omega
  · induction flat using twoStepInduction with
    | h0 => simp [stride2]
    | h1 a => simp at heven
    | h2 a b rest ih =>
      have ha : a < 16 := hval a (by simp)
      have hb : b < 16 := hval b (by simp)
      simp only [stride2, List.zipWith_cons_cons, List.flatMap_cons,
        unpack_packByte ha hb]
      have hrest : (List.zipWith packByte (stride2 rest).1 (stride2 rest).2).flatMap
          unpackByte = rest := by
        apply ih
        · intro p hp
          exact hval p (by simp [hp])
        · simp only [List.length_cons] at heven
          omega
      simp [hrest]

/-- The row-major flattening of a canvas whose rows all have width `w` has
`h*w` entries. -/
theorem flatten_length (canvas : List (List Nat)) (w : Nat)
    (hw : ∀ row ∈ canvas, row.length = w) :
    canvas.flatten.length = canvas.length * w := by
  induction canvas with
  | nil => simp
  | cons row rest ih =>
    have h1 : row.length = w := hw row (by simp)
    have h2 : rest.flatten.length = rest.length * w := by
      apply ih
      intro r hr
      exact hw r (by simp [hr])
    simp [h1, h2]
    ring

/-- C1: the bit packer serializes an index canvas in row-major scan order
(`canvas.flatten`), emitting for each consecutive pixel pair `(p0, p1)` one
byte `(p0 << 4) | p1` (`packByte`, high nibble even position, low nibble odd
position); for a canvas of even pixel count the packed buffer has length
`w*h/2` and unpacking each byte into its high then low nibble reproduces the
flattened canvas exactly. -/
theorem C1_pack_roundtrip (canvas : List (List Nat)) (w h : Nat)
    (hh : canvas.length = h) (hw : ∀ row ∈ canvas, row.length = w)
    (hval : ∀ row ∈ canvas, ∀ p ∈ row, p < 16) (heven : (w * h) % 2 = 0) :
    ∃ buf, packCanvas canvas = some buf ∧
      buf = List.zipWith packByte (stride2 canvas.flatten).1 (stride2 canvas.flatten).2 ∧
      buf.length = w * h / 2 ∧
      buf.flatMap unpackByte = canvas.flatten := by
  have hflen : canvas.flatten.length = w * h := by
    rw [flatten_length canvas w hw, hh, Nat.mul_comm]
  have hfval : ∀ p ∈ canvas.flatten, p < 16 := by
    intro p hp
    rw [List.mem_flatten] at hp
    obtain ⟨row, hrow, hpin⟩ := hp
    exact hval row hrow p hpin
  have hfe : canvas.flatten.length % 2 = 0 := by rw [hflen]; exact heven
  obtain ⟨h1, h2, h3⟩ := packFlat_even canvas.flatten hfval hfe
  refine ⟨_, h1, rfl, ?_, h3⟩
  rw [h2, hflen]

/-- C1 witness: the 2×2 canvas `[[1,2],[3,4]]` packs to two bytes and unpacks
back to `[1,2,3,4]`. -/
theorem C1_pack_roundtrip_witness :
    ([[1, 2], [3, 4]] : List (List Nat)).length = 2 ∧
    (∀ row ∈ ([[1, 2], [3, 4]] : List (List Nat)), row.length = 2) ∧
    (∀ row ∈ ([[1, 2], [3, 4]] : List (List Nat)), ∀ p ∈ row, p < 16) ∧
    (2 * 2) % 2 = 0 ∧
    ∃ buf, packCanvas [[1, 2], [3, 4]] = some buf ∧
      buf = List.zipWith packByte (stride2 ([[1, 2], [3, 4]] : List (List Nat)).flatten).1
        (stride2 ([[1, 2], [3, 4]] : List (List Nat)).flatten).2 ∧
      buf.length = 2 * 2 / 2 ∧
      buf.flatMap unpackByte = ([[1, 2], [3, 4]] : List (List Nat)).flatten :=
  ⟨by decide, by decide, by decide, by decide,
    C1_pack_roundtrip [[1, 2], [3, 4]] 2 2 (by decide) (by decide) (by decide) (by decide)⟩

/-- C8 counterexample: a canvas with 5 pixels makes the packer fail — the two
numpy slices have incompatible lengths 3 and 2, so the elementwise shift/or
raises (modelled as `none`); no padded buffer of length `⌈5/2⌉` is produced. -/
theorem C8_counterexample : packCanvas [[0, 1, 2, 3, 4]] = none := by decide

/-- C8 amended: the packer does not pad odd canvases with index 0.  With one
pixel the length-1 even slice broadcasts against the empty odd slice and the
buffer is empty; with three pixels the singleton odd slice is broadcast, so
the lone odd-position pixel is reused for both bytes; with an odd count of at
least five the slice lengths are incompatible and the operation fails. -/
theorem C8_odd_no_padding :
    packFlat [7] = some [] ∧
    (∀ a b c : Nat, packFlat [a, b, c] = some [packByte a b, packByte c b]) ∧
    ∀ flat : List Nat, flat.length % 2 = 1 → 5 ≤ flat.length → packFlat flat = none := by
  refine ⟨by decide, fun a b c => rfl, ?_⟩
  intro flat hodd hlen
  have hl := stride2_lengths flat
  simp only [packFlat, npBroadcastPack]
  rw [if_neg (by omega), if_neg (by omega), if_neg (by omega)]

/-- C8 witness for the amended claim at the five-pixel canvas `[1,1,1,1,1]`. -/
theorem C8_odd_no_padding_witness :
    ([1, 1, 1, 1, 1] : List Nat).length % 2 = 1 ∧ 5 ≤ ([1, 1, 1, 1, 1] : List Nat).length ∧
    packFlat [1, 1, 1, 1, 1] = none :=
  ⟨by decide, by decide, C8_odd_no_padding.2.2 [1, 1, 1, 1, 1] (by decide) (by decide)⟩

/-! ### Quantizer lemmas -/

/-- Adding a zero error changes nothing. -/
theorem addv_zero (v : RGBi) : addv v rgbZero = v := by
  cases v
  simp [addv, rgbZero]

/-- A pixel equal to its chosen palette color has zero quantization error. -/
theorem subv_self (v : RGBi) : subv v v = rgbZero := by
  cases v
  simp [subv, rgbZero]

/-- Diffused fractions of a zero error are zero. -/
theorem scaleDiv16_zero (k : Int) : scaleDiv16 rgbZero k = rgbZero := by
  simp [scaleDiv16, rgbZero]

/-- A palette color is its own nearest palette color: the lowest-index-first
scan returns an index holding exactly that color (checked for each of the six
colors). -/
theorem nearest_self : ∀ v ∈ paletteColors,
    paletteColors.getD (nearestIdx paletteColors v) rgbZero = v := by
  intro v hv
  fin_cases hv <;> decide

/-- `getD` with default `rgbZero` over a list of zeros is zero. -/
theorem getD_allZero (l : List RGBi) (i : Nat) (h : ∀ e ∈ l, e = rgbZero) :
    l.getD i rgbZero = rgbZero := by
  induction l generalizing i with
  | nil => simp
  | cons a t ih =>
    cases i with
    | zero => simpa using h a (by simp)
    | succ n =>
      simp only [List.getD_cons_succ]
      exact ih n fun e he => h e (by simp [he])

/-- Incoming diffused errors that are all zero leave a row unchanged. -/
theorem addRows_allZero (row : List RGBi) :
    ∀ inc : List RGBi, (∀ e ∈ inc, e = rgbZero) → addRows row inc = row := by
  induction row with
  | nil => intro inc _; cases inc <;> rfl
  | cons v vs ih =>
    intro inc hinc
    cases inc with
    | nil => simp [addRows, ih [] (by simp)]
    | cons e es =>
      have he : e = rgbZero := hinc e (by simp)
      have hes : ∀ x ∈ es, x = rgbZero := fun x hx => hinc x (by simp [hx])
      simp [addRows, he, addv_zero, ih es hes]

/-- A row of zero errors contributes zero to every position of the next row. -/
theorem rowContrib_allZero (errs : List RGBi) (w : Nat)
    (h : ∀ e ∈ errs, e = rgbZero) : ∀ e ∈ rowContrib errs w, e = rgbZero := by
  intro e he
  rw [rowContrib, List.mem_map] at he
  obtain ⟨x, _, rcont⟩ := he
  rw [getD_allZero errs (x + 1) h, getD_allZero errs x h] at rcont
  rcases Nat.eq_zero_or_pos x with rfl | hx
  · simpa [scaleDiv16_zero, addv_zero] using rcont.symm
  · rw [if_neg (by omega), getD_allZero errs (x - 1) h] at rcont
    simpa [scaleDiv16_zero, addv_zero] using rcont.symm

/-- A Floyd–Steinberg pass over a row made of palette colors (with zero
incoming carry) chooses every pixel's own color and produces only zero
errors. -/
theorem fsRowAux_palette (vs : List RGBi) (hvs : ∀ v ∈ vs, v ∈ paletteColors) :
    ((fsRowAux paletteColors vs rgbZero).1.map fun i => paletteColors.getD i rgbZero) = vs ∧
    ∀ e ∈ (fsRowAux paletteColors vs rgbZero).2, e = rgbZero := by
  induction vs with
  | nil => simp [fsRowAux]
  | cons v vs ih =>
    have hv : v ∈ paletteColors := hvs v (by simp)
    have hrest : ∀ x ∈ vs, x ∈ paletteColors := fun x hx => hvs x (by simp [hx])
    obtain ⟨ih1, ih2⟩ := ih hrest
    have hsame : paletteColors.getD (nearestIdx paletteColors v) rgbZero = v :=
      nearest_self v hv
    constructor
    · simp only [fsRowAux, List.map_cons, addv_zero]
      rw [hsame, subv_self, scaleDiv16_zero, ih1]
    · intro e he
      simp only [fsRowAux, addv_zero] at he
      rw [hsame, subv_self, scaleDiv16_zero] at he
      rcases List.mem_cons.mp he with rfl | he
      · rfl
      · exact ih2 e he

/-- A Floyd–Steinberg pass over an image made solely of palette colors maps
every pixel to an index holding its own color, with all-zero incoming errors
preserved row to row. -/
theorem fsQuantAux_palette (rows : List (List RGBi)) :
    ∀ inc : List RGBi, (∀ row ∈ rows, ∀ v ∈ row, v ∈ paletteColors) →
    (∀ e ∈ inc, e = rgbZero) →
    ((fsQuantAux paletteColors rows inc).map fun idxs =>
      idxs.map fun i => paletteColors.getD i rgbZero) = rows := by
  induction rows with
  | nil => intro inc _ _; rfl
  | cons row rest ih =>
    intro inc hrows hinc
    have hrow : ∀ v ∈ row, v ∈ paletteColors := hrows row (by simp)
    have hone : addRows row inc = row := addRows_allZero row inc hinc
    obtain ⟨h1, h2⟩ := fsRowAux_palette row hrow
    simp only [fsQuantAux, hone, List.map_cons, h1]
    rw [ih (rowContrib (fsRowAux paletteColors row rgbZero).2 (rest.headD []).length)
      (fun r hr => hrows r (by simp [hr]))
      (rowContrib_allZero _ _ h2)]

/-- C2: the palette is a fixed, process-wide table of exactly 6 colors with
the contractual assignment 0=Black, 1=White, 2=Green, 3=Blue, 4=Red,
5=Yellow — exactly the leading triples of `palette_data` in `main.py` — and
every quantization (`resize_and_dither_image`) runs against precisely this
constant palette, never one derived from the input image. -/
theorem C2_fixed_palette :
    paletteColors.length = 6 ∧
    paletteColors = [⟨0, 0, 0⟩, ⟨255, 255, 255⟩, ⟨0, 128, 0⟩,
      ⟨0, 0, 255⟩, ⟨255, 0, 0⟩, ⟨255, 255, 0⟩] ∧
    (∀ i : Fin 6, paletteColors.getD i rgbZero =
      ⟨(paletteData.getD (3 * i) 0 : Int), (paletteData.getD (3 * i + 1) 0 : Int),
        (paletteData.getD (3 * i + 2) 0 : Int)⟩) ∧
    ∀ img : List (List RGBi), resizeAndDitherImage img = fsQuant paletteColors img :=
  ⟨rfl, rfl, by decide, fun _ => rfl⟩

/-- C4: quantization is idempotent on palette-valued images — reading the
emitted indices back through the palette reproduces the image exactly (no
dithering artifacts, all diffused errors zero) — and the solid pure-red 10×10
image quantizes to an index canvas holding index 4 everywhere. -/
theorem C4_idempotent_on_palette :
    (∀ rows : List (List RGBi), (∀ row ∈ rows, ∀ v ∈ row, v ∈ paletteColors) →
      ((resizeAndDitherImage rows).map fun idxs =>
        idxs.map fun i => paletteColors.getD i rgbZero) = rows) ∧
    resizeAndDitherImage (List.replicate 10 (List.replicate 10 rgbRed)) =
      List.replicate 10 (List.replicate 10 4) := by
  constructor
  · intro rows hrows
    exact fsQuantAux_palette rows [] hrows (by simp)
  · decide

/-- C4 witness: the single-pixel pure-red image is palette-valued and maps
back to itself. -/
theorem C4_idempotent_witness :
    (∀ row ∈ [[rgbRed]], ∀ v ∈ row, v ∈ paletteColors) ∧
    ((resizeAndDitherImage [[rgbRed]]).map fun idxs =>
      idxs.map fun i => paletteColors.getD i rgbZero) = [[rgbRed]] :=
  ⟨by decide, C4_idempotent_on_palette.1 [[rgbRed]] (by decide)⟩

/-! ### Index-range lemmas -/

/-- The scan for the nearest color only ever returns the running best or the
position of a scanned element, so the result stays below `i + cs.length`
whenever the running best does. -/
theorem nearestAux_lt (v : RGBi) :
    ∀ (cs : List RGBi) (i bi : Nat) (bd : Int), bi < i →
      nearestAux v cs i bi bd < i + cs.length := by
  intro cs
  induction cs with
  | nil => intro i bi bd h; simpa [nearestAux] using h
  | cons c cs ih =>
    intro i bi bd h
    simp only [nearestAux, List.length_cons]
    split
    · have := ih (i + 1) i (dist2 c v) (by omega)
      omega
    · have := ih (i + 1) bi bd (by omega)
      omega

/-- The nearest-color index is a valid index into the 6-entry palette. -/
theorem nearestIdx_palette_lt (v : RGBi) : nearestIdx paletteColors v < 6 := by
  have h := nearestAux_lt v paletteColors.tail 1 0 (dist2 (⟨0, 0, 0⟩ : RGBi) v) (by omega)
  simpa [nearestIdx, paletteColors] using h

/-- Every index a row pass emits is a valid palette index. -/
theorem fsRowAux_lt (vs : List RGBi) :
    ∀ carry : RGBi, ∀ i ∈ (fsRowAux paletteColors vs carry).1, i < 6 := by
  induction vs with
  | nil => intro carry i hi; simp [fsRowAux] at hi
  | cons v vs ih =>
    intro carry i hi
    simp only [fsRowAux] at hi
    rcases List.mem_cons.mp hi with rfl | hi
    · exact nearestIdx_palette_lt _
    · exact ih _ i hi

/-- Every index the quantizer emits is a valid palette index 0–5. -/
theorem fsQuant_lt (rows : List (List RGBi)) :
    ∀ inc : List RGBi, ∀ idxs ∈ fsQuantAux paletteColors rows inc, ∀ i ∈ idxs, i < 6 := by
  induction rows with
  | nil => intro inc idxs hidxs; simp [fsQuantAux] at hidxs
  | cons row rest ih =>
    intro inc idxs hidxs
    simp only [fsQuantAux] at hidxs
    rcases List.mem_cons.mp hidxs with rfl | hidxs
    · exact fsRowAux_lt _ _
    · exact ih _ idxs hidxs

/-- Every element of a `zipWith` comes from its two argument lists. -/
theorem mem_zipWith_pack (f : Nat → Nat → Nat) :
    ∀ (as bs : List Nat), ∀ c ∈ List.zipWith f as bs,
      ∃ a ∈ as, ∃ b ∈ bs, c = f a b := by
  intro as
  induction as with
  | nil => intro bs c hc; simp at hc
  | cons a as ih =>
    intro bs c hc
    cases bs with
    | nil => simp at hc
    | cons b bs =>
      rcases List.mem_cons.mp hc with rfl | hc
      · exact ⟨a, by simp, b, by simp, rfl⟩
      · obtain ⟨x, hx, y, hy, rfl⟩ := ih bs c hc
        exact ⟨x, by simp [hx], y, by simp [hy], rfl⟩

/-- Every byte a successful broadcast pack produces is `packByte p0 p1` for
pixels `p0`, `p1` of the two slices. -/
theorem npBroadcastPack_mem (evens odds buf : List Nat)
    (h : npBroadcastPack evens odds = some buf) :
    ∀ c ∈ buf, ∃ a ∈ evens, ∃ b ∈ odds, c = packByte a b := by
  intro c hc
  simp only [npBroadcastPack] at h
  split at h
  · obtain rfl := Option.some.inj h
    exact mem_zipWith_pack packByte evens odds c hc
  · split at h
    · obtain rfl := Option.some.inj h
      obtain ⟨b, hb, rfl⟩ := List.mem_map.mp hc
      refine ⟨evens.headD 0, ?_, b, hb, rfl⟩
      cases evens with
      | nil => simp at *
      | cons e es => simp
    · split at h
      · obtain rfl := Option.some.inj h
        obtain ⟨a, ha, rfl⟩ := List.mem_map.mp hc
        refine ⟨a, ha, odds.headD 0, ?_, rfl⟩
        cases odds with
        | nil => simp at *
        | cons o os => simp
      · exact absurd h (by simp)

/-- C10: every byte of the packed buffer produced by the full conversion
(quantize with the fixed 6-entry palette, then pack) carries a valid palette
index 0–5 in its high nibble and in its low nibble. -/
theorem C10_nibbles_valid (img : List (List RGBi)) (buf : List Nat)
    (hconv : convertToDisplayFormat img = some buf) :
    ∀ byte ∈ buf, byte / 16 < 6 ∧ byte % 16 < 6 := by
  intro byte hb
  have hflat : ∀ p ∈ (resizeAndDitherImage img).flatten, p < 6 := by
    intro p hp
    rw [List.mem_flatten] at hp
    obtain ⟨row, hrow, hpin⟩ := hp
    exact fsQuant_lt img [] row hrow p hpin
  have hmem := npBroadcastPack_mem _ _ _ hconv byte hb
  obtain ⟨a, ha, b, hb2, rfl⟩ := hmem
  have ha6 : a < 6 := hflat a ((stride2_mem _).1 a ha)
  have hb6 : b < 6 := hflat b ((stride2_mem _).2 b hb2)
  rw [packByte_eq (by omega) (by omega)]
  omega

/-- C10 witness: the 1×2 red/black image converts to the single byte `0x40`,
whose nibbles 4 and 0 are valid palette indices. -/
theorem C10_nibbles_valid_witness :
    convertToDisplayFormat [[rgbRed, rgbZero]] = some [64] ∧
    ∀ byte ∈ [64], byte / 16 < 6 ∧ byte % 16 < 6 :=
  ⟨by decide, C10_nibbles_valid [[rgbRed, rgbZero]] [64] (by decide)⟩

/-! ### Geometry lemmas -/

/-- The border step never changes the canvas size. -/
theorem applyBorder_dims (img : Img) (b : Nat) :
    (applyBorder img b).w = img.w ∧ (applyBorder img b).h = img.h := by
  rw [applyBorder]
  split <;> exact ⟨rfl, rfl⟩

/-- C3: for every source image, both orientation settings and every border
percent below 100, the geometry fitter returns an image of exactly the
configured physical display resolution. -/
theorem C3_fitter_dims (img : Img) (orient : String) (w h b : Nat)
    (hb : b < 100) (ho : orient = "vertical" ∨ orient = "horizontal") :
    (resizeAndRotateImage img orient w h b).w = w ∧
    (resizeAndRotateImage img orient w h b).h = h := by
  have hB := applyBorder_dims
  rcases ho with rfl | rfl
  · rw [resizeAndRotateImage]
    simp only [if_pos rfl]
    by_cases hwh : img.w > img.h
    · rw [if_pos hwh]
      exact ⟨(hB _ b).1, (hB _ b).2⟩
    · rw [if_neg hwh]
      exact ⟨(hB _ b).1, (hB _ b).2⟩
  · rw [resizeAndRotateImage]
    rw [if_neg (by decide)]
    exact ⟨(hB _ b).1, (hB _ b).2⟩

/-- C3 witness: a 3×2 white source in vertical orientation with a 5% border
comes out at exactly 800×480. -/
theorem C3_fitter_dims_witness :
    5 < 100 ∧ ("vertical" = "vertical" ∨ "vertical" = "horizontal") ∧
    (resizeAndRotateImage (Img.mk 3 2 fun _ _ => rgbWhite) "vertical" 800 480 5).w = 800 ∧
    (resizeAndRotateImage (Img.mk 3 2 fun _ _ => rgbWhite) "vertical" 800 480 5).h = 480 := by
  refine ⟨by omega, Or.inl rfl, ?_, ?_⟩
  · exact (C3_fitter_dims (Img.mk 3 2 fun _ _ => rgbWhite) "vertical" 800 480 5
      (by omega) (Or.inl rfl)).1
  · exact (C3_fitter_dims (Img.mk 3 2 fun _ _ => rgbWhite) "vertical" 800 480 5
      (by omega) (Or.inl rfl)).2

/-- C6: the fitter branches exactly as claimed — vertical orientation fits
against the swapped target `(h, w)`; a landscape source (wider than tall) is
padded with the blurred/extended version of itself and rotated 90°; a
portrait-or-square source is center-crop-and-scaled to the target box and
rotated 90°; horizontal orientation center-crop-and-scales directly to the
physical resolution with no rotation. -/
theorem C6_fitter_branches :
    (∀ (img : Img) (w h : Nat), img.w > img.h →
      resizeAndRotateImage img "vertical" w h 0 = rotate90 (padImageBlur img (h, w))) ∧
    (∀ (img : Img) (w h : Nat), ¬ img.w > img.h →
      resizeAndRotateImage img "vertical" w h 0 = rotate90 (fitOp img (h, w))) ∧
    ∀ (img : Img) (w h : Nat),
      resizeAndRotateImage img "horizontal" w h 0 = fitOp img (w, h) := by
  refine ⟨?_, ?_, ?_⟩
  · intro img w h hwh
    rw [resizeAndRotateImage]
    simp only [if_pos rfl, if_pos hwh]
    rfl
  · intro img w h hwh
    rw [resizeAndRotateImage]
    simp only [if_pos rfl, if_neg hwh]
    rfl
  · intro img w h
    rw [resizeAndRotateImage]
    rw [if_neg (by decide)]
    rfl

/-- C6 witness: a 2×1 landscape source in vertical orientation takes the
blur-pad-then-rotate branch at the 800×480 display. -/
theorem C6_fitter_branches_witness :
    (Img.mk 2 1 fun _ _ => rgbWhite).w > (Img.mk 2 1 fun _ _ => rgbWhite).h ∧
    resizeAndRotateImage (Img.mk 2 1 fun _ _ => rgbWhite) "vertical" 800 480 0 =
      rotate90 (padImageBlur (Img.mk 2 1 fun _ _ => rgbWhite) (480, 800)) :=
  ⟨by decide, C6_fitter_branches.1 (Img.mk 2 1 fun _ _ => rgbWhite) 800 480 (by decide)⟩

/-- C7 counterexample: apply a 10% border to an all-white 10×10 fitted image.
The shrink factor gives a 9×9 box (within 1px of 90% of each dimension), but
every pixel of the result is white — there is no non-white content at all, so
the non-white content area's bounding box cannot measure 9×9 (±1px) as the
claim requires. -/
theorem C7_counterexample :
    shrinkDim 10 10 = 9 ∧
    allWhite (applyBorder (Img.mk 10 10 fun _ _ => rgbWhite) 10) = true ∧
    ∀ x : Nat, x < 10 → ∀ y : Nat, y < 10 →
      (applyBorder (Img.mk 10 10 fun _ _ => rgbWhite) 10).pix x y = rgbWhite := by
  refine ⟨by decide, by decide, by decide⟩

/-- C7 amended: with borderPercent `B ∈ (0, 100)` the result keeps the fitted
dimensions; every pixel outside the centered `⌊W(1−B/100)⌋ × ⌊H(1−B/100)⌋` box
is white and inside it the shrunk image shows through, so the non-white
content is confined to that box — whose sides are within 1px of `(1−B/100)`
of each fitted dimension and whose margins are centered within 1px.  (The
bounding box of the non-white content equals the box only when the shrunk
content's own borders are non-white; an all-white fitted image yields no
non-white content at all.) -/
theorem C7_border_box (img : Img) (b : Nat) (hb0 : 0 < b) (hb1 : b < 100) :
    (applyBorder img b).w = img.w ∧
    (applyBorder img b).h = img.h ∧
    (∀ x y : Nat,
      (x < pasteOff img.w b ∨ pasteOff img.w b + shrinkDim img.w b ≤ x ∨
       y < pasteOff img.h b ∨ pasteOff img.h b + shrinkDim img.h b ≤ y) →
      (applyBorder img b).pix x y = rgbWhite) ∧
    (∀ x y : Nat, pasteOff img.w b ≤ x → x < pasteOff img.w b + shrinkDim img.w b →
      pasteOff img.h b ≤ y → y < pasteOff img.h b + shrinkDim img.h b →
      (applyBorder img b).pix x y =
        (resizeOp img (shrinkDim img.w b) (shrinkDim img.h b)).pix
          (x - pasteOff img.w b) (y - pasteOff img.h b)) ∧
    100 * shrinkDim img.w b ≤ img.w * (100 - b) ∧
    img.w * (100 - b) < 100 * shrinkDim img.w b + 100 ∧
    100 * shrinkDim img.h b ≤ img.h * (100 - b) ∧
    img.h * (100 - b) < 100 * shrinkDim img.h b + 100 ∧
    2 * pasteOff img.w b ≤ img.w - shrinkDim img.w b ∧
    img.w - shrinkDim img.w b ≤ 2 * pasteOff img.w b + 1 ∧
    2 * pasteOff img.h b ≤ img.h - shrinkDim img.h b ∧
    img.h - shrinkDim img.h b ≤ 2 * pasteOff img.h b + 1 := by
  have hB : applyBorder img b = Img.mk img.w img.h fun x y =>
      if pasteOff img.w b ≤ x ∧ x < pasteOff img.w b + shrinkDim img.w b ∧
          pasteOff img.h b ≤ y ∧ y < pasteOff img.h b + shrinkDim img.h b then
        (resizeOp img (shrinkDim img.w b) (shrinkDim img.h b)).pix
          (x - pasteOff img.w b) (y - pasteOff img.h b)
      else rgbWhite := by
    rw [applyBorder, if_pos hb0]
  refine ⟨by rw [hB], by rw [hB], ?_, ?_, ?_, ?_, ?_, ?_, ?_, ?_, ?_, ?_⟩
  · intro x y hout
    rw [hB]
    exact if_neg (by omega)
  · intro x y h1 h2 h3 h4
    rw [hB]
    exact if_pos ⟨h1, h2, h3, h4⟩
  · simp only [shrinkDim]
    omega
  · simp only [shrinkDim]
    omega
  · simp only [shrinkDim]
    omega
  · simp only [shrinkDim]
    omega
  · simp only [pasteOff]
    omega
  · simp only [pasteOff]
    omega
  · simp only [pasteOff]
    omega
  · simp only [pasteOff]
    omega

/-- C7 witness for the amended claim: a 10×10 all-black fitted image with a
20% border; the corner pixel (0,0) lies in the margin and is white. -/
theorem C7_border_box_witness :
    0 < 20 ∧ 20 < 100 ∧
    (applyBorder (Img.mk 10 10 fun _ _ => rgbZero) 20).pix 0 0 = rgbWhite :=
  ⟨by omega, by omega,
    (C7_border_box (Img.mk 10 10 fun _ _ => rgbZero) 20 (by omega) (by omega)).2.2.1 0 0
      (Or.inl (by decide))⟩

/-! ### Freshness gate and error propagation -/

/-- C5: the freshness gate of `get_current_image` compares the
whole-second-truncated file mtime against the parsed `If-Modified-Since`
value: a header asserting a time at or after the file mtime yields the
empty-bodied 304 response; a header strictly before the file mtime, or one
that fails to parse, proceeds to the fresh conversion, whose successful
response carries the updated `Last-Modified` marker. -/
theorem C5_freshness_gate (m : ℚ) (t : Int) (img : List (List RGBi)) :
    (truncSeconds m ≤ t → getCurrentImage m (some t) img = ⟨304, [], none⟩) ∧
    (t < truncSeconds m →
      getCurrentImage m (some t) img = freshResponse (truncSeconds m) img) ∧
    getCurrentImage m none img = freshResponse (truncSeconds m) img ∧
    (∀ buf, convertToDisplayFormat img = some buf →
      freshResponse (truncSeconds m) img = ⟨200, buf, some (truncSeconds m)⟩) ∧
    (0 ≤ m → (truncSeconds m : ℚ) ≤ m ∧ m < (truncSeconds m : ℚ) + 1) := by
  refine ⟨?_, ?_, rfl, ?_, ?_⟩
  · intro hle
    simp only [getCurrentImage, if_pos hle]
  · intro hlt
    have hn : ¬ truncSeconds m ≤ t := by omega
    simp only [getCurrentImage, if_neg hn]
  · intro buf hconv
    rw [freshResponse, hconv]
  · intro hm
    rw [truncSeconds, if_pos hm]
    exact ⟨Int.floor_le m, Int.lt_floor_add_one m⟩

/-- C5 witness: with a file mtime of 100 seconds, a header asserting 100 gets
the empty 304; a header asserting 99 gets the freshly packed single-byte body
with Last-Modified 100. -/
theorem C5_freshness_gate_witness :
    truncSeconds (100 : ℚ) ≤ 100 ∧
    getCurrentImage (100 : ℚ) (some 100) [[rgbRed, rgbZero]] = ⟨304, [], none⟩ ∧
    (99 : Int) < truncSeconds (100 : ℚ) ∧
    getCurrentImage (100 : ℚ) (some 99) [[rgbRed, rgbZero]] =
      freshResponse (truncSeconds (100 : ℚ)) [[rgbRed, rgbZero]] ∧
    getCurrentImage (100 : ℚ) none [[rgbRed, rgbZero]] =
      freshResponse (truncSeconds (100 : ℚ)) [[rgbRed, rgbZero]] ∧
    freshResponse (truncSeconds (100 : ℚ)) [[rgbRed, rgbZero]] =
      ⟨200, [64], some (truncSeconds (100 : ℚ))⟩ ∧
    (0 : ℚ) ≤ 100 ∧
    (truncSeconds (100 : ℚ) : ℚ) ≤ 100 ∧ (100 : ℚ) < (truncSeconds (100 : ℚ) : ℚ) + 1 :=
  ⟨by norm_num [truncSeconds],
    (C5_freshness_gate (100 : ℚ) 100 [[rgbRed, rgbZero]]).1 (by norm_num [truncSeconds]),
    by norm_num [truncSeconds],
    (C5_freshness_gate (100 : ℚ) 99 [[rgbRed, rgbZero]]).2.1 (by norm_num [truncSeconds]),
    (C5_freshness_gate (100 : ℚ) 99 [[rgbRed, rgbZero]]).2.2.1,
    (C5_freshness_gate (100 : ℚ) 99 [[rgbRed, rgbZero]]).2.2.2.1 [64] (by decide),
    by norm_num,
    ((C5_freshness_gate (100 : ℚ) 99 [[rgbRed, rgbZero]]).2.2.2.2 (by norm_num)).1,
    ((C5_freshness_gate (100 : ℚ) 99 [[rgbRed, rgbZero]]).2.2.2.2 (by norm_num)).2⟩

/-- C9 counterexample: in `handle_request_files`, an upload whose bytes do not
decode as an image does not surface an error — the exception is caught, a
warning is logged, and the raw bytes are saved in place of the processed
image; the request succeeds.  The decode error is therefore silently
recovered inside upload handling, contrary to the claim. -/
theorem C9_counterexample :
    handleImageFile none "vertical" 800 480 0 = SaveOutcome.rawSave := rfl

/-- C9 amended: `ImageUpload.open_image` does surface a decode failure as the
user-visible message "Failed to read image file." and passes a decoded image
through unchanged (no retry, no recovery); `handle_request_files`, however,
catches decode/processing failures and saves the raw uploaded bytes instead,
so the upload path recovers silently. -/
theorem C9_read_error_paths :
    openImage none = Except.error "Failed to read image file." ∧
    (∀ img : Img, openImage (some img) = Except.ok img) ∧
    ∀ (orient : String) (w h bp : Nat),
      handleImageFile none orient w h bp = SaveOutcome.rawSave :=
  ⟨rfl, fun _ => rfl, fun _ _ _ _ => rfl⟩

end InkyPi
